import Mathlib

/-!
Verification of the minimal TLS 1.2 server engine (`new-tls.py`).

The Python source is shallowly embedded: bytes become `List Nat` (each
element a value `< 256` on the wire), the mutable `TLS` object becomes an
explicit state record threaded through a small error monad, and the
external cryptographic library calls (`hmac.digest`/`hashlib.sha256` and
the AES-128-GCM primitive from `Crypto.Cipher`) become abstract function
parameters collected in a `Crypto` structure, with GCM modelled by its
structure: a CTR keystream XORed into the plaintext plus a tag that is a
function of key, nonce, additional data and ciphertext.
-/

abbrev Bytes := List Nat

/-- Byte list of an ASCII string literal, e.g. the PRF labels. -/
def bytesOf (s : String) : Bytes := s.toList.map Char.toNat

/-- Big-endian 1-byte packing, `struct.pack` format `B`. -/
def pack8 (x : Nat) : Bytes := [x % 256]

/-- Big-endian 2-byte packing, `struct.pack` format `>H`. -/
def pack16 (x : Nat) : Bytes := [x / 256 % 256, x % 256]

/-- Big-endian 4-byte packing, `struct.pack` format `>I`. -/
def pack32 (x : Nat) : Bytes :=
  [x / 2 ^ 24 % 256, x / 2 ^ 16 % 256, x / 2 ^ 8 % 256, x % 256]

/-- Big-endian 8-byte packing, `struct.pack` format `>Q`. -/
def pack64 (x : Nat) : Bytes :=
  [x / 2 ^ 56 % 256, x / 2 ^ 48 % 256, x / 2 ^ 40 % 256, x / 2 ^ 32 % 256,
   x / 2 ^ 24 % 256, x / 2 ^ 16 % 256, x / 2 ^ 8 % 256, x % 256]

/-- Big-endian reading of a byte list as a natural number
(`int.from_bytes(_, byteorder='big')`, also `struct.unpack` of `>I`). -/
def bytesToNat (b : Bytes) : Nat := b.foldl (fun a x => a * 256 + x) 0

/-- Helper for `natToBytes`: peel off the low byte `len` times. -/
def natToBytesAux : Nat → Nat → Bytes → Bytes
  | 0, _, acc => acc
  | len + 1, x, acc => natToBytesAux len (x / 256) (x % 256 :: acc)

/-- Big-endian `len`-byte encoding of `x`, `int.to_bytes(len, byteorder='big')`. -/
def natToBytes (len x : Nat) : Bytes := natToBytesAux len x []

/-!
The TLS 1.2 pseudorandom function (RFC 5246 section 5), source lines 16-27.
`hmac` abstracts `hmac.digest(_, _, hashlib.sha256)`; for the real library
its output always has 32 bytes, which theorems take as a hypothesis.
The source's `while` loop runs until `length` bytes have accumulated; each
round appends at least one byte, so `length` iterations of fuel are enough,
and the fuelled loop below is proved equal to the unbounded round stream.
-/

/-- The source's `while len(result) < length` loop, with explicit fuel. -/
def prfLoop (hmac : Bytes → Bytes → Bytes) (secret seed : Bytes) (length : Nat)
    (curA result : Bytes) : Nat → Bytes
  | 0 => result
  | fuel + 1 =>
    if result.length < length then
      let a := hmac secret curA
      prfLoop hmac secret seed length a (result ++ hmac secret (a ++ seed)) fuel
    else result

/-- `prf(secret, label, seed, length)` from the source: seed becomes
`label + seed`, the loop accumulates HMAC rounds, and the result is
truncated to `length` bytes. -/
def prf (hmac : Bytes → Bytes → Bytes) (secret label seed0 : Bytes)
    (length : Nat) : Bytes :=
  let seed := label ++ seed0
  (prfLoop hmac secret seed length seed [] length).take length

/-- The A-chain of RFC 5246: `A0 = seed`, `Ai = HMAC(secret, A(i-1))`. -/
def aChain (hmac : Bytes → Bytes → Bytes) (secret seed : Bytes) : Nat → Bytes
  | 0 => seed
  | i + 1 => hmac secret (aChain hmac secret seed i)

/-- Modelled from the spec: the concatenation of the first `n` PRF rounds,
round `i` contributing `HMAC(secret, Ai || seed)` with `seed = label || seed0`. -/
def pStream (hmac : Bytes → Bytes → Bytes) (secret seed : Bytes) : Nat → Bytes
  | 0 => []
  | n + 1 => pStream hmac secret seed n ++ hmac secret (aChain hmac secret seed (n + 1) ++ seed)

/-- `to_ad(seq_num, tls_type, tls_version, tls_len)`: the 13-byte additional
authenticated data, `struct.pack` of `>QBHH`. -/
def to_ad (seq_num tls_type tls_version tls_len : Nat) : Bytes :=
  pack64 seq_num ++ pack8 tls_type ++ pack16 tls_version ++ pack16 tls_len

/-- The source's `get_random_bytes`: the constant byte `b'A'` repeated. -/
def get_random_bytes (length : Nat) : Bytes := List.replicate length 65

/-!
External cryptographic primitives, abstracted.  `hmacSha256` and `sha256`
stand for the Python standard library calls; `keystream` and `gcmTag`
model AES-128-GCM by its structure: encryption XORs the plaintext with a
byte keystream determined by key and nonce, and the 16-byte tag is a
function of key, nonce, additional data and ciphertext (GHASH followed by
encryption of the pre-counter block).
-/

structure Crypto where
  hmacSha256 : Bytes → Bytes → Bytes
  sha256 : Bytes → Bytes
  keystream : Bytes → Bytes → Nat → Nat
  gcmTag : Bytes → Bytes → Bytes → Bytes → Bytes

/-- XOR a byte list with the keystream starting at position `i`
(CTR-mode encryption and decryption). -/
def ctrXor (ks : Bytes → Bytes → Nat → Nat) (key nonce : Bytes) : Nat → Bytes → Bytes
  | _, [] => []
  | i, b :: rest => (b ^^^ ks key nonce i % 256) :: ctrXor ks key nonce (i + 1) rest

/-- `cipher.encrypt_and_digest(data)`: ciphertext plus tag. -/
def gcm_encrypt_and_digest (c : Crypto) (key nonce aad pt : Bytes) : Bytes × Bytes :=
  let ct := ctrXor c.keystream key nonce 0 pt
  (ct, c.gcmTag key nonce aad ct)

namespace TLS

def KEY_LENGTH : Nat := 512
def PKCS_PREFIX : Bytes := [0x00, 0x02]
def VERSION : Nat := 0x0303
def CIPHER_SUITE : Nat := 0x9c
def CHANGE_CIPHER_SPEC_CONTENT_TYPE : Nat := 0x14
def ALERT_CONTENT_TYPE : Nat := 0x15
def HANDSHAKE_CONTENT_TYPE : Nat := 0x16
def DATA_CONTENT_TYPE : Nat := 0x17
def FINISHED_HANDSHAKE_TYPE : Nat := 0x14

structure Record where
  content_type : Nat
  version : Nat
  data : Bytes
deriving DecidableEq

structure HandshakeRecord where
  handshake_type : Nat
  data : Bytes
deriving DecidableEq

structure SessionKeys where
  master_secret : Bytes
  client_key : Bytes
  server_key : Bytes
  client_salt : Bytes
  server_salt : Bytes
deriving DecidableEq

/-- The failure modes of the engine.  Python raises `AssertionError` or
library exceptions; the spec names them: a bad record content type or
handshake type is a protocol error, a bad PKCS prefix a padding error, a
bad premaster length an invalid-length error, a GCM tag mismatch an
authentication error; `streamError` is a short read and `unpackError` a
`struct.unpack` on too few bytes; `noKeysError` is the `AttributeError`
from using `self.session_keys` while it is still `None`. -/
inductive Err where
  | streamError
  | contentTypeError
  | handshakeTypeError
  | paddingError
  | invalidLengthError
  | authError
  | unpackError
  | noKeysError
deriving DecidableEq

/-- The server identity handed to `TLS.__init__` (the RSA private key as
exponent and modulus, the certificate chain, and the session id). -/
structure Config where
  privD : Nat
  privN : Nat
  certs : List Bytes
  session_id : Bytes

/-- The mutable state of one `TLS` object together with its two stream
ends: `input` is what remains of the client's bytes, `output` accumulates
everything sent to the client. -/
structure TLSState where
  input : Bytes
  output : Bytes
  server_random : Bytes
  client_seq_num : Nat
  server_seq_num : Nat
  handshake_log : Bytes
  session_keys : Option SessionKeys
deriving DecidableEq

/-- State-plus-error monad.  On failure the state at the point of the
raise is kept, matching Python exception semantics where the object's
mutations before the raise persist. -/
def M (α : Type) : Type := TLSState → Except Err α × TLSState

instance : Monad M where
  pure a := fun s => (.ok a, s)
  bind x f := fun s =>
    match x s with
    | (.ok a, s') => f a s'
    | (.error e, s') => (.error e, s')

def getS : M TLSState := fun s => (.ok s, s)

def setS (s' : TLSState) : M Unit := fun _ => (.ok (), s')

def throwM {α : Type} (e : Err) : M α := fun s => (.error e, s)

/-- `socket.recv(n)` under the spec's collaborator contract: exactly `n`
bytes or a fatal stream error. -/
def recv (n : Nat) : M Bytes := do
  let st ← getS
  if n ≤ st.input.length then
    setS { st with input := st.input.drop n }
    pure (st.input.take n)
  else throwM .streamError

/-- `socket.send(bytes)`. -/
def send (b : Bytes) : M Unit := do
  let st ← getS
  setS { st with output := st.output ++ b }

/-- Append bytes to `self.handshake_log`. -/
def appendLog (b : Bytes) : M Unit := do
  let st ← getS
  setS { st with handshake_log := st.handshake_log ++ b }

/-- `TLS._read_record`: 5-byte header `>BHH`, then `length` payload bytes,
then the content-type assertion. -/
def read_record (expected_type : Nat) : M Record := do
  let header ← recv 5
  let content_type := header.getD 0 0
  let version := header.getD 1 0 * 256 + header.getD 2 0
  let length := header.getD 3 0 * 256 + header.getD 4 0
  let data ← recv length
  if content_type = expected_type then
    pure ⟨content_type, version, data⟩
  else throwM .contentTypeError

/-- `TLS._write_record`: serialize the 5-byte header followed by payload. -/
def write_record (r : Record) : M Unit :=
  send (pack8 r.content_type ++ pack16 r.version ++ pack16 r.data.length ++ r.data)

/-- `TLS._encrypt` without the sequence-number side effect: wire payload
`explicit_nonce || ciphertext || tag` for the server direction. -/
def encryptPayload (c : Crypto) (keys : SessionKeys) (server_seq : Nat)
    (data : Bytes) (tls_type : Nat) : Bytes :=
  let explicit_nonce := get_random_bytes 8
  let nonce := keys.server_salt ++ explicit_nonce
  let aad := to_ad server_seq tls_type VERSION data.length
  let (ciphertext, tag) := gcm_encrypt_and_digest c keys.server_key nonce aad data
  explicit_nonce ++ ciphertext ++ tag

/-- `TLS._decrypt` without the sequence-number side effect: split the
payload as `data[0:8] / data[8:-16] / data[-16:]`, rebuild the AAD from
the client counter and the record's type and version, verify the tag. -/
def decryptPayload (c : Crypto) (keys : SessionKeys) (client_seq : Nat)
    (data : Bytes) (tls_type tls_version : Nat) : Except Err Bytes :=
  let nonce := keys.client_salt ++ data.take 8
  let ciphertext := (data.drop 8).take (data.length - 24)
  let tag := data.drop (data.length - 16)
  let aad := to_ad client_seq tls_type tls_version ciphertext.length
  if c.gcmTag keys.client_key nonce aad ciphertext = tag then
    .ok (ctrXor c.keystream keys.client_key nonce 0 ciphertext)
  else .error .authError

/-- `TLS._encrypt`: the stateful wrapper, incrementing `server_seq_num`. -/
def encrypt (c : Crypto) (data : Bytes) (tls_type : Nat) : M Bytes := do
  let st ← getS
  match st.session_keys with
  | none => throwM .noKeysError
  | some keys =>
    let out := encryptPayload c keys st.server_seq_num data tls_type
    setS { st with server_seq_num := st.server_seq_num + 1 }
    pure out

/-- `TLS._decrypt`: the stateful wrapper.  The counter increment happens
before `decrypt_and_verify`, so it persists even when verification fails. -/
def decrypt (c : Crypto) (data : Bytes) (tls_type tls_version : Nat) : M Bytes := do
  let st ← getS
  match st.session_keys with
  | none => throwM .noKeysError
  | some keys =>
    setS { st with client_seq_num := st.client_seq_num + 1 }
    match decryptPayload c keys st.client_seq_num data tls_type tls_version with
    | .ok pt => pure pt
    | .error e => throwM e

/-- `TLS._read_handshake_record`: read a Handshake record, optionally
decrypt it, append the (plaintext) payload to the transcript, then parse
the 4-byte `>I` header into type and 24-bit length and check the type. -/
def read_handshake_record (c : Crypto) (expected_type : Nat) (decryptFlag : Bool) :
    M HandshakeRecord := do
  let record ← read_record HANDSHAKE_CONTENT_TYPE
  let payload ←
    if decryptFlag then decrypt c record.data HANDSHAKE_CONTENT_TYPE record.version
    else pure record.data
  appendLog payload
  if payload.length < 4 then throwM .unpackError
  else
    let header := bytesToNat (payload.take 4)
    let handshake_type := header >>> 24
    if handshake_type = expected_type then
      let length := header &&& 0xFFFFFF
      pure ⟨handshake_type, (payload.drop 4).take length⟩
    else throwM .handshakeTypeError

/-- `TLS._write_handshake_record`: build the 4-byte header plus body,
optionally encrypt, append what was (possibly already encrypted) to the
transcript, and write the record. -/
def write_handshake_record (c : Crypto) (r : HandshakeRecord) (encryptFlag : Bool) :
    M Unit := do
  let header := (r.handshake_type <<< 24) ||| r.data.length
  let payload0 := pack32 header ++ r.data
  let payload ←
    if encryptFlag then encrypt c payload0 HANDSHAKE_CONTENT_TYPE
    else pure payload0
  appendLog payload
  write_record ⟨HANDSHAKE_CONTENT_TYPE, VERSION, payload⟩

/-- `TLS._get_server_hello`. -/
def get_server_hello (cfg : Config) : M Bytes := do
  let st ← getS
  pure (pack16 VERSION ++ st.server_random ++ pack8 cfg.session_id.length
        ++ cfg.session_id ++ pack16 CIPHER_SUITE ++ pack8 0 ++ pack16 0)

/-- The inner `int16_to_int24_bytes` of `TLS._get_certificate`. -/
def int16_to_int24_bytes (x : Nat) : Bytes := [0] ++ pack16 x

/-- `TLS._get_certificate`. -/
def get_certificate (cfg : Config) : Bytes :=
  let packed_certs := (cfg.certs.map fun cert =>
    int16_to_int24_bytes cert.length ++ cert).flatten
  int16_to_int24_bytes packed_certs.length ++ packed_certs

/-- Raw RSA: `pow(c, d, n).to_bytes(KEY_LENGTH, 'big')` on the big-endian
reading of the ciphertext bytes. -/
def rsa_decrypt_block (cfg : Config) (encrypted : Bytes) : Bytes :=
  natToBytes KEY_LENGTH (bytesToNat encrypted ^ cfg.privD % cfg.privN)

/-- The PKCS#1 v1.5 unpadding step of `TLS.derive_keys`: check the
`b'\x00\x02'` prefix, take everything after the first zero byte at index
2 or later (`bytes.find` returns `-1`, i.e. the whole block, when no zero
exists), and require exactly 48 premaster bytes. -/
def extract_premaster (block : Bytes) : Except Err Bytes :=
  if block.take PKCS_PREFIX.length = PKCS_PREFIX then
    let premaster :=
      match (block.drop 2).findIdx? (· = 0) with
      | some j => block.drop (2 + j + 1)
      | none => block
    if premaster.length = 48 then .ok premaster else .error .invalidLengthError
  else .error .paddingError

/-- The key-derivation tail of `TLS.derive_keys`: master secret, key
block, and the four slices. -/
def key_schedule (hmac : Bytes → Bytes → Bytes)
    (premaster_secret client_random server_random : Bytes) : SessionKeys :=
  let master_secret :=
    prf hmac premaster_secret (bytesOf "master secret")
      (client_random ++ server_random) 48
  let enc_key_length := 16
  let fixed_iv_length := 4
  let expanded_key_length := 2 * (enc_key_length + fixed_iv_length)
  let key_block :=
    prf hmac master_secret (bytesOf "key expansion")
      (server_random ++ client_random) expanded_key_length
  { master_secret := master_secret
    client_key := key_block.take enc_key_length
    server_key := (key_block.drop enc_key_length).take enc_key_length
    client_salt := (key_block.drop (2 * enc_key_length)).take fixed_iv_length
    server_salt := key_block.drop (2 * enc_key_length + fixed_iv_length) }

/-- `TLS.derive_keys`: length assertion, raw RSA, PKCS unpadding, then the
key schedule. -/
def derive_keys (hmac : Bytes → Bytes → Bytes) (cfg : Config) (server_random : Bytes)
    (encrypted_premaster_secret client_random : Bytes) : Except Err SessionKeys :=
  if encrypted_premaster_secret.length = KEY_LENGTH then
    match extract_premaster (rsa_decrypt_block cfg encrypted_premaster_secret) with
    | .ok premaster => .ok (key_schedule hmac premaster client_random server_random)
    | .error e => .error e
  else .error .invalidLengthError

/-- `TLS._get_server_finished`. -/
def get_server_finished (c : Crypto) : M Bytes := do
  let st ← getS
  match st.session_keys with
  | none => throwM .noKeysError
  | some keys =>
    let session_hash := c.sha256 st.handshake_log
    pure (prf c.hmacSha256 keys.master_secret (bytesOf "server finished") session_hash 12)

/-- The tail of `TLS._shake_hands` from the ChangeCipherSpec read onward:
read the client Finished (decrypting it), send ChangeCipherSpec and the
encrypted server Finished.  The received Finished record is returned so
theorems can observe it; the source binds it to a variable it never uses. -/
def finished_exchange (c : Crypto) : M HandshakeRecord := do
  let _ ← read_record CHANGE_CIPHER_SPEC_CONTENT_TYPE
  let client_finished ← read_handshake_record c FINISHED_HANDSHAKE_TYPE true
  write_record ⟨CHANGE_CIPHER_SPEC_CONTENT_TYPE, VERSION, [1]⟩
  let sf ← get_server_finished c
  write_handshake_record c ⟨FINISHED_HANDSHAKE_TYPE, sf⟩ true
  pure client_finished

/-- `TLS._shake_hands`. -/
def shake_hands (c : Crypto) (cfg : Config) : M HandshakeRecord := do
  let client_hello ← read_handshake_record c 0x1 false
  let client_random := (client_hello.data.drop 2).take 32
  let sh ← get_server_hello cfg
  write_handshake_record c ⟨0x2, sh⟩ false
  write_handshake_record c ⟨0xb, get_certificate cfg⟩ false
  write_handshake_record c ⟨0xe, []⟩ false
  let cke ← read_handshake_record c 0x10 false
  let encrypted_premaster_secret := cke.data.drop 2
  let st ← getS
  match derive_keys c.hmacSha256 cfg st.server_random encrypted_premaster_secret client_random with
  | .error e => throwM e
  | .ok keys =>
    setS { st with session_keys := some keys }
    finished_exchange c

/-- `TLS.__init__` up to (excluding) the `_shake_hands` call: the fresh
object state over a given client byte stream. -/
def init (_cfg : Config) (input : Bytes) : TLSState :=
  { input := input
    output := []
    server_random := get_random_bytes 32
    client_seq_num := 0
    server_seq_num := 0
    handshake_log := []
    session_keys := none }

/-- A whole construction of a `TLS` object: `__init__` driving
`_shake_hands` over the client's bytes. -/
def runHandshake (c : Crypto) (cfg : Config) (input : Bytes) :
    Except Err HandshakeRecord × TLSState :=
  shake_hands c cfg (init cfg input)

end TLS

/-!
PRF lemmas: the fuelled source loop computes the round stream of the
specification, and the stream's prefixes are coherent.
-/

theorem pStream_length (hmac : Bytes → Bytes → Bytes) (secret seed : Bytes)
    (h32 : ∀ m, (hmac secret m).length = 32) (n : Nat) :
    (pStream hmac secret seed n).length = 32 * n := by
  induction n with
  | zero => rfl
  | succ n ih => simp [pStream, ih, h32, Nat.mul_succ]

theorem pStream_mono (hmac : Bytes → Bytes → Bytes) (secret seed : Bytes)
    {m n : Nat} (h : m ≤ n) :
    pStream hmac secret seed m <+: pStream hmac secret seed n := by
  induction n with
  | zero => simp_all
  | succ n ih =>
    rcases Nat.lt_or_ge m (n + 1) with hlt | hge
    · exact (ih (Nat.lt_succ_iff.mp hlt)).trans (List.prefix_append _ _)
    · have : m = n + 1 := Nat.le_antisymm h hge
      subst this
      exact List.prefix_rfl

theorem pStream_take_eq (hmac : Bytes → Bytes → Bytes) (secret seed : Bytes)
    {m n L : Nat} (hmn : m ≤ n) (hL : L ≤ (pStream hmac secret seed m).length) :
    (pStream hmac secret seed m).take L = (pStream hmac secret seed n).take L := by
  obtain ⟨t, ht⟩ := pStream_mono hmac secret seed hmn
  rw [← ht, List.take_append_of_le_length hL]

theorem prfLoop_eq_pStream (hmac : Bytes → Bytes → Bytes) (secret seed : Bytes)
    (h32 : ∀ m, (hmac secret m).length = 32) (L : Nat) :
    ∀ (fuel k : Nat), L ≤ (pStream hmac secret seed k).length + 32 * fuel →
    (prfLoop hmac secret seed L (aChain hmac secret seed k)
        (pStream hmac secret seed k) fuel).take L
      = (pStream hmac secret seed (k + fuel)).take L := by
  intro fuel
  induction fuel with
  | zero => intro k _; rfl
  | succ fuel ih =>
    intro k hk
    by_cases hlt : (pStream hmac secret seed k).length < L
    · have step :
          prfLoop hmac secret seed L (aChain hmac secret seed k)
              (pStream hmac secret seed k) (fuel + 1)
            = prfLoop hmac secret seed L (aChain hmac secret seed (k + 1))
                (pStream hmac secret seed (k + 1)) fuel := by
        simp [prfLoop, hlt, aChain, pStream]
      rw [step]
      have hk' : L ≤ (pStream hmac secret seed (k + 1)).length + 32 * fuel := by
        rw [pStream_length hmac secret seed h32] at hk ⊢
        omega
      rw [ih (k + 1) hk']
      have : k + 1 + fuel = k + (fuel + 1) := by omega
      rw [this]
    · have hle : L ≤ (pStream hmac secret seed k).length := Nat.le_of_not_lt hlt
      have step :
          prfLoop hmac secret seed L (aChain hmac secret seed k)
              (pStream hmac secret seed k) (fuel + 1)
            = pStream hmac secret seed k := by
        simp [prfLoop, hlt]
      rw [step]
      exact pStream_take_eq hmac secret seed (Nat.le_add_right k (fuel + 1)) hle

theorem prf_eq_pStream (hmac : Bytes → Bytes → Bytes) (secret label seed0 : Bytes)
    (L : Nat) (h32 : ∀ m, (hmac secret m).length = 32) :
    prf hmac secret label seed0 L
      = (pStream hmac secret (label ++ seed0) L).take L := by
  have h0 := prfLoop_eq_pStream hmac secret (label ++ seed0) h32 L L 0
    (by rw [pStream_length hmac secret (label ++ seed0) h32]; omega)
  simpa [prf, aChain, pStream] using h0

theorem prf_length (hmac : Bytes → Bytes → Bytes) (secret label seed0 : Bytes)
    (L : Nat) (h32 : ∀ m, (hmac secret m).length = 32) :
    (prf hmac secret label seed0 L).length = L := by
  rw [prf_eq_pStream hmac secret label seed0 L h32, List.length_take,
    pStream_length hmac secret (label ++ seed0) h32]
  omega

/-- C7: `prf(secret, label, seed, length)` equals the first `length` bytes
of the round stream `HMAC(secret, A1 || label || seed) || HMAC(secret, A2
|| label || seed) || ...` with `A0 = label || seed`, `Ai = HMAC(secret,
A(i-1))`, taken from any number of rounds that yields at least `length`
bytes, and the result has exactly `length` bytes. -/
theorem claim_C7 (hmac : Bytes → Bytes → Bytes) (secret label seed0 : Bytes)
    (L : Nat) (h32 : ∀ m, (hmac secret m).length = 32) :
    (∀ n, L ≤ (pStream hmac secret (label ++ seed0) n).length →
      prf hmac secret label seed0 L = (pStream hmac secret (label ++ seed0) n).take L) ∧
    (prf hmac secret label seed0 L).length = L := by
  constructor
  · intro n hn
    rw [prf_eq_pStream hmac secret label seed0 L h32]
    rcases Nat.le_total L n with hLn | hnL
    · exact pStream_take_eq hmac secret (label ++ seed0) hLn
        (by rw [pStream_length hmac secret (label ++ seed0) h32]; omega)
    · exact (pStream_take_eq hmac secret (label ++ seed0) hnL hn).symm
  · exact prf_length hmac secret label seed0 L h32

/-- A constant HMAC stand-in used by concrete witnesses; its output always
has 32 bytes, like HMAC-SHA256. -/
def constHmac (b : Nat) : Bytes → Bytes → Bytes := fun _ _ => List.replicate 32 b

theorem claim_C7_witness :
    (∀ m, (constHmac 1 [5] m).length = 32) ∧
    ((∀ n, 12 ≤ (pStream (constHmac 1) [5] ([7] ++ [9]) n).length →
      prf (constHmac 1) [5] [7] [9] 12 = (pStream (constHmac 1) [5] ([7] ++ [9]) n).take 12) ∧
    (prf (constHmac 1) [5] [7] [9] 12).length = 12) :=
  ⟨fun m => by simp [constHmac],
   claim_C7 (constHmac 1) [5] [7] [9] 12 (fun m => by simp [constHmac])⟩

/-- C8: for a fixed secret, label and seed, `prf(..., n)` is a prefix of
`prf(..., n + k)`. -/
theorem claim_C8 (hmac : Bytes → Bytes → Bytes) (secret label seed0 : Bytes)
    (n k : Nat) (h32 : ∀ m, (hmac secret m).length = 32) :
    prf hmac secret label seed0 n <+: prf hmac secret label seed0 (n + k) := by
  rw [prf_eq_pStream hmac secret label seed0 n h32,
    prf_eq_pStream hmac secret label seed0 (n + k) h32]
  have h1 : (pStream hmac secret (label ++ seed0) n).take n
      = (pStream hmac secret (label ++ seed0) (n + k)).take n :=
    pStream_take_eq hmac secret (label ++ seed0) (Nat.le_add_right n k)
      (by rw [pStream_length hmac secret (label ++ seed0) h32]; omega)
  rw [h1]
  have h2 : (pStream hmac secret (label ++ seed0) (n + k)).take n
      = ((pStream hmac secret (label ++ seed0) (n + k)).take (n + k)).take n := by
    rw [List.take_take]
    congr 1
    omega
  rw [h2]
  exact List.take_prefix n _
theorem claim_C8_witness :
    (∀ m, (constHmac 2 [1] m).length = 32) ∧
    prf (constHmac 2) [1] [2] [3] 10 <+: prf (constHmac 2) [1] [2] [3] (10 + 7) :=
  ⟨fun m => by simp [constHmac],
   claim_C8 (constHmac 2) [1] [2] [3] 10 7 (fun m => by simp [constHmac])⟩

/-- The 40-byte key block of the key schedule, spelled out:
`prf(master_secret, "key expansion", server_random || client_random, 40)`
with `master_secret = prf(premaster, "master secret", client_random ||
server_random, 48)`. -/
def keyBlockOf (hmac : Bytes → Bytes → Bytes) (pm cr sr : Bytes) : Bytes :=
  prf hmac (prf hmac pm (bytesOf "master secret") (cr ++ sr) 48)
    (bytesOf "key expansion") (sr ++ cr) 40

/-- C4: for a 48-byte premaster secret and 32-byte randoms, the key
schedule produces `master_secret = prf(premaster, "master secret",
client_random || server_random, 48)`, the 40-byte key block
`prf(master_secret, "key expansion", server_random || client_random, 40)`
(randoms swapped), split in order into a 16-byte client key, a 16-byte
server key, a 4-byte client salt and a 4-byte server salt, with the
master secret 48 bytes long. -/
theorem claim_C4 (hmac : Bytes → Bytes → Bytes)
    (h32 : ∀ s m, (hmac s m).length = 32) (pm cr sr : Bytes)
    (hpm : pm.length = 48) (hcr : cr.length = 32) (hsr : sr.length = 32) :
    (TLS.key_schedule hmac pm cr sr).master_secret
        = prf hmac pm (bytesOf "master secret") (cr ++ sr) 48 ∧
    (keyBlockOf hmac pm cr sr).length = 40 ∧
    (TLS.key_schedule hmac pm cr sr).client_key = (keyBlockOf hmac pm cr sr).take 16 ∧
    (TLS.key_schedule hmac pm cr sr).server_key
        = ((keyBlockOf hmac pm cr sr).drop 16).take 16 ∧
    (TLS.key_schedule hmac pm cr sr).client_salt
        = ((keyBlockOf hmac pm cr sr).drop 32).take 4 ∧
    (TLS.key_schedule hmac pm cr sr).server_salt = (keyBlockOf hmac pm cr sr).drop 36 ∧
    (TLS.key_schedule hmac pm cr sr).master_secret.length = 48 ∧
    (TLS.key_schedule hmac pm cr sr).client_key.length = 16 ∧
    (TLS.key_schedule hmac pm cr sr).server_key.length = 16 ∧
    (TLS.key_schedule hmac pm cr sr).client_salt.length = 4 ∧
    (TLS.key_schedule hmac pm cr sr).server_salt.length = 4 := by
  have hkb : (keyBlockOf hmac pm cr sr).length = 40 :=
    prf_length hmac _ _ _ 40 (fun m => h32 _ m)
  refine ⟨rfl, hkb, rfl, rfl, rfl, rfl, ?_, ?_, ?_, ?_, ?_⟩
  · exact prf_length hmac _ _ _ 48 (fun m => h32 _ m)
  · show ((keyBlockOf hmac pm cr sr).take 16).length = 16
    rw [List.length_take]; omega
  · show (((keyBlockOf hmac pm cr sr).drop 16).take 16).length = 16
    rw [List.length_take, List.length_drop]; omega
  · show (((keyBlockOf hmac pm cr sr).drop 32).take 4).length = 4
    rw [List.length_take, List.length_drop]; omega
  · show ((keyBlockOf hmac pm cr sr).drop 36).length = 4
    rw [List.length_drop]; omega

theorem claim_C4_witness :
    (∀ s m, (constHmac 3 s m).length = 32) ∧
    (List.replicate 48 0 : Bytes).length = 48 ∧
    (List.replicate 32 1 : Bytes).length = 32 ∧
    (List.replicate 32 2 : Bytes).length = 32 ∧
    ((TLS.key_schedule (constHmac 3) (List.replicate 48 0) (List.replicate 32 1)
        (List.replicate 32 2)).master_secret
      = prf (constHmac 3) (List.replicate 48 0) (bytesOf "master secret")
          (List.replicate 32 1 ++ List.replicate 32 2) 48 ∧
     (keyBlockOf (constHmac 3) (List.replicate 48 0) (List.replicate 32 1)
        (List.replicate 32 2)).length = 40 ∧
     (TLS.key_schedule (constHmac 3) (List.replicate 48 0) (List.replicate 32 1)
        (List.replicate 32 2)).client_key
      = (keyBlockOf (constHmac 3) (List.replicate 48 0) (List.replicate 32 1)
          (List.replicate 32 2)).take 16 ∧
     (TLS.key_schedule (constHmac 3) (List.replicate 48 0) (List.replicate 32 1)
        (List.replicate 32 2)).server_key
      = ((keyBlockOf (constHmac 3) (List.replicate 48 0) (List.replicate 32 1)
          (List.replicate 32 2)).drop 16).take 16 ∧
     (TLS.key_schedule (constHmac 3) (List.replicate 48 0) (List.replicate 32 1)
        (List.replicate 32 2)).client_salt
      = ((keyBlockOf (constHmac 3) (List.replicate 48 0) (List.replicate 32 1)
          (List.replicate 32 2)).drop 32).take 4 ∧
     (TLS.key_schedule (constHmac 3) (List.replicate 48 0) (List.replicate 32 1)
        (List.replicate 32 2)).server_salt
      = (keyBlockOf (constHmac 3) (List.replicate 48 0) (List.replicate 32 1)
          (List.replicate 32 2)).drop 36 ∧
     (TLS.key_schedule (constHmac 3) (List.replicate 48 0) (List.replicate 32 1)
        (List.replicate 32 2)).master_secret.length = 48 ∧
     (TLS.key_schedule (constHmac 3) (List.replicate 48 0) (List.replicate 32 1)
        (List.replicate 32 2)).client_key.length = 16 ∧
     (TLS.key_schedule (constHmac 3) (List.replicate 48 0) (List.replicate 32 1)
        (List.replicate 32 2)).server_key.length = 16 ∧
     (TLS.key_schedule (constHmac 3) (List.replicate 48 0) (List.replicate 32 1)
        (List.replicate 32 2)).client_salt.length = 4 ∧
     (TLS.key_schedule (constHmac 3) (List.replicate 48 0) (List.replicate 32 1)
        (List.replicate 32 2)).server_salt.length = 4) :=
  ⟨fun s m => by simp [constHmac], by simp, by simp, by simp,
   claim_C4 (constHmac 3) (fun s m => by simp [constHmac])
     (List.replicate 48 0) (List.replicate 32 1) (List.replicate 32 2)
     (by simp) (by simp) (by simp)⟩

/-- A predicate that is false on a zero-free block prefix finds the first
zero right after it. -/
theorem findIdx?_first_zero (pad suffix : Bytes) (h : ∀ x ∈ pad, x ≠ 0) :
    (pad ++ 0 :: suffix).findIdx? (· = 0) = some pad.length := by
  induction pad with
  | nil => simp [List.findIdx?]
  | cons a rest ih =>
    have ha : (a = 0) = False := by simp [h a (by simp)]
    simp [List.findIdx?, ha, ih (fun x hx => h x (by simp [hx]))]

/-- Evaluation of the unpadding step when a zero separator exists at
relative index `j` after the prefix. -/
theorem extract_premaster_some (block : Bytes) (j : Nat)
    (hpre : block.take 2 = TLS.PKCS_PREFIX)
    (hfind : (block.drop 2).findIdx? (· = 0) = some j) :
    TLS.extract_premaster block =
      if (block.drop (2 + j + 1)).length = 48 then .ok (block.drop (2 + j + 1))
      else .error .invalidLengthError := by
  have h2 : TLS.PKCS_PREFIX.length = 2 := rfl
  simp only [TLS.extract_premaster, h2, hpre, hfind, if_true]

/-- Evaluation of the unpadding step when no zero separator exists. -/
theorem extract_premaster_none (block : Bytes)
    (hpre : block.take 2 = TLS.PKCS_PREFIX)
    (hfind : (block.drop 2).findIdx? (· = 0) = none) :
    TLS.extract_premaster block =
      if block.length = 48 then .ok block else .error .invalidLengthError := by
  have h2 : TLS.PKCS_PREFIX.length = 2 := rfl
  simp only [TLS.extract_premaster, h2, hpre, hfind, if_true]

/-- C3: on a 512-byte RSA plaintext block, a bad `0x00 0x02` prefix fails
with the padding error; with a good prefix the premaster secret is the
suffix after the first zero byte at index 2 or later, accepted exactly
when it has 48 bytes and rejected with the invalid-length error
otherwise; a block with no zero separator after the prefix also fails
with the invalid-length error. -/
theorem claim_C3 (block : Bytes) (hlen : block.length = 512) :
    (block.take 2 ≠ TLS.PKCS_PREFIX →
      TLS.extract_premaster block = .error .paddingError) ∧
    (∀ pad suffix : Bytes, block = [0, 2] ++ pad ++ 0 :: suffix →
      (∀ x ∈ pad, x ≠ 0) →
      ((suffix.length = 48 → TLS.extract_premaster block = .ok suffix) ∧
       (suffix.length ≠ 48 →
         TLS.extract_premaster block = .error .invalidLengthError))) ∧
    (∀ rest : Bytes, block = [0, 2] ++ rest → (∀ x ∈ rest, x ≠ 0) →
      TLS.extract_premaster block = .error .invalidLengthError) := by
  refine ⟨?_, ?_, ?_⟩
  · intro h
    have h2 : TLS.PKCS_PREFIX.length = 2 := rfl
    simp only [TLS.extract_premaster, h2, h, if_false]
  · rintro pad suffix rfl hpad
    have hpre : (([0, 2] ++ pad ++ 0 :: suffix : Bytes)).take 2 = TLS.PKCS_PREFIX := by
      rfl
    have hdrop2 : (([0, 2] ++ pad ++ 0 :: suffix : Bytes)).drop 2 = pad ++ 0 :: suffix := by
      rfl
    have hfind : ((([0, 2] ++ pad ++ 0 :: suffix : Bytes)).drop 2).findIdx? (· = 0)
        = some pad.length := by
      rw [hdrop2]; exact findIdx?_first_zero pad suffix hpad
    have hdropAll :
        (([0, 2] ++ pad ++ 0 :: suffix : Bytes)).drop (2 + pad.length + 1) = suffix := by
      have hsplit : ([0, 2] ++ pad ++ 0 :: suffix : Bytes)
          = (([0, 2] ++ pad ++ [0]) ++ suffix : Bytes) := by simp
      have hl : (([0, 2] ++ pad ++ [0] : Bytes)).length = 2 + pad.length + 1 := by
        simp; omega
      rw [hsplit, ← hl, List.drop_left]
    have heval := extract_premaster_some _ pad.length hpre hfind
    rw [hdropAll] at heval
    constructor
    · intro h48; rw [heval, if_pos h48]
    · intro h48; rw [heval, if_neg h48]
  · rintro rest rfl hrest
    have hpre : (([0, 2] ++ rest : Bytes)).take 2 = TLS.PKCS_PREFIX := rfl
    have hdrop2 : (([0, 2] ++ rest : Bytes)).drop 2 = rest := rfl
    have hfind : ((([0, 2] ++ rest : Bytes)).drop 2).findIdx? (· = 0) = none := by
      rw [hdrop2]
      exact List.findIdx?_eq_none_iff.mpr (fun x hx => by simp [hrest x hx])
    have heval := extract_premaster_none _ hpre hfind
    rw [heval, if_neg (by omega)]

/-- A well-padded 512-byte block: prefix `00 02`, 461 nonzero padding
bytes, the zero separator, then 48 premaster bytes. -/
def goodBlock : Bytes := [0, 2] ++ List.replicate 461 1 ++ 0 :: List.replicate 48 34

set_option maxRecDepth 4000 in
theorem claim_C3_witness :
    goodBlock.length = 512 ∧
    TLS.extract_premaster goodBlock = .ok (List.replicate 48 34) := by
  have hlen : goodBlock.length = 512 := by simp [goodBlock]
  refine ⟨hlen, ?_⟩
  exact ((claim_C3 goodBlock hlen).2.1 (List.replicate 461 1) (List.replicate 48 34)
    rfl (fun x hx => by have := List.eq_of_mem_replicate hx; omega)).1 (by simp)

namespace TLS

@[simp] theorem bind_eval {α β : Type} (x : M α) (f : α → M β) (s : TLSState) :
    (x >>= f) s = match x s with
      | (.ok a, s') => f a s'
      | (.error e, s') => (.error e, s') := rfl

@[simp] theorem pure_eval {α : Type} (a : α) (s : TLSState) :
    (pure a : M α) s = (.ok a, s) := rfl

@[simp] theorem getS_eval (s : TLSState) : getS s = (.ok s, s) := rfl

@[simp] theorem setS_eval (s' s : TLSState) : setS s' s = (.ok (), s') := rfl

@[simp] theorem throwM_eval {α : Type} (e : Err) (s : TLSState) :
    (throwM e : M α) s = (.error e, s) := rfl

theorem recv_eval (n : Nat) (st : TLSState) :
    recv n st = if n ≤ st.input.length
      then (.ok (st.input.take n), { st with input := st.input.drop n })
      else (.error .streamError, st) := by
  by_cases h : n ≤ st.input.length <;> simp [recv, h, ite_apply]

theorem send_eval (b : Bytes) (st : TLSState) :
    send b st = (.ok (), { st with output := st.output ++ b }) := by
  simp [send]

theorem appendLog_eval (b : Bytes) (st : TLSState) :
    appendLog b st = (.ok (), { st with handshake_log := st.handshake_log ++ b }) := by
  simp [appendLog]

/-- Full evaluation of `_read_record` on a well-formed header whose
announced payload is available on the stream. -/
theorem read_record_eval (expected ct vh vl lh ll : Nat) (rest : Bytes) (st : TLSState)
    (hin : st.input = ct :: vh :: vl :: lh :: ll :: rest)
    (hrest : lh * 256 + ll ≤ rest.length) :
    read_record expected st =
      if ct = expected
      then (.ok ⟨ct, vh * 256 + vl, rest.take (lh * 256 + ll)⟩,
            { st with input := rest.drop (lh * 256 + ll) })
      else (.error .contentTypeError, { st with input := rest.drop (lh * 256 + ll) }) := by
  have h5 : (5 : Nat) ≤ st.input.length := by rw [hin]; simp
  have hr1 : recv 5 st = (.ok [ct, vh, vl, lh, ll], { st with input := rest }) := by
    rw [recv_eval, if_pos h5, hin]
    simp
  by_cases hct : ct = expected
  · simp [read_record, hr1, recv_eval, hrest, hct, ite_apply]
  · simp [read_record, hr1, recv_eval, hrest, hct, ite_apply]

end TLS

/-- C9: `_read_record` parses the 5-byte header as content type, big-endian
version and big-endian length, reads exactly `length` payload bytes, fails
with the unexpected-content-type error when the header type differs from
the expected one, and on success returns exactly the wire content type,
version and `length`-byte payload. -/
theorem claim_C9 (expected ct vh vl lh ll : Nat) (rest : Bytes) (st : TLS.TLSState)
    (hin : st.input = ct :: vh :: vl :: lh :: ll :: rest)
    (hrest : lh * 256 + ll ≤ rest.length) :
    (ct ≠ expected → (TLS.read_record expected st).1 = .error .contentTypeError) ∧
    (ct = expected →
      (TLS.read_record expected st).1
        = .ok ⟨ct, vh * 256 + vl, rest.take (lh * 256 + ll)⟩ ∧
      (TLS.read_record expected st).2.input = rest.drop (lh * 256 + ll) ∧
      (rest.take (lh * 256 + ll)).length = lh * 256 + ll) := by
  rw [TLS.read_record_eval expected ct vh vl lh ll rest st hin hrest]
  constructor
  · intro h
    rw [if_neg h]
  · intro h
    rw [if_pos h]
    exact ⟨rfl, rfl, by rw [List.length_take]; omega⟩

/-- A fresh engine state over a given client byte stream, used by concrete
witnesses (the configuration only matters through the handshake). -/
def exampleConfig : TLS.Config :=
  { privD := 1
    privN := 1 <<< 4095
    certs := [[170]]
    session_id := List.replicate 32 90 }

theorem claim_C9_witness :
    (TLS.init exampleConfig [22, 3, 3, 0, 2, 7, 8]).input
        = 22 :: 3 :: 3 :: 0 :: 2 :: [7, 8] ∧
    0 * 256 + 2 ≤ ([7, 8] : Bytes).length ∧
    ((22 ≠ 21 →
      (TLS.read_record 21 (TLS.init exampleConfig [22, 3, 3, 0, 2, 7, 8])).1
        = .error .contentTypeError) ∧
     (22 = 21 →
      (TLS.read_record 21 (TLS.init exampleConfig [22, 3, 3, 0, 2, 7, 8])).1
        = .ok ⟨22, 3 * 256 + 3, ([7, 8] : Bytes).take (0 * 256 + 2)⟩ ∧
      (TLS.read_record 21 (TLS.init exampleConfig [22, 3, 3, 0, 2, 7, 8])).2.input
        = ([7, 8] : Bytes).drop (0 * 256 + 2) ∧
      (([7, 8] : Bytes).take (0 * 256 + 2)).length = 0 * 256 + 2)) :=
  ⟨rfl, by simp,
   claim_C9 21 22 3 3 0 2 [7, 8] (TLS.init exampleConfig [22, 3, 3, 0, 2, 7, 8])
     rfl (by simp)⟩

/-!
Sequence-counter behaviour.  An `AeadOp` is one AEAD-processed record in
one direction: an `_encrypt` call (server to client) or a `_decrypt` call
(client to server, counting failed authentications too, since the source
increments before `decrypt_and_verify`).
-/

inductive AeadOp where
  | enc (tls_type : Nat) (data : Bytes)
  | dec (tls_type tls_version : Nat) (data : Bytes)

/-- The state reached after one AEAD operation (the produced or recovered
bytes are discarded; only the state evolution matters here). -/
def applyAeadOp (c : Crypto) (st : TLS.TLSState) : AeadOp → TLS.TLSState
  | .enc t d => (TLS.encrypt c d t st).2
  | .dec t v d => (TLS.decrypt c d t v st).2

/-- Number of server-direction (encrypt) operations. -/
def countEnc : List AeadOp → Nat
  | [] => 0
  | .enc _ _ :: rest => countEnc rest + 1
  | .dec _ _ _ :: rest => countEnc rest

/-- Number of client-direction (decrypt) operations. -/
def countDec : List AeadOp → Nat
  | [] => 0
  | .enc _ _ :: rest => countDec rest
  | .dec _ _ _ :: rest => countDec rest + 1

theorem encrypt_state (c : Crypto) (d : Bytes) (t : Nat) (st : TLS.TLSState)
    (keys : TLS.SessionKeys) (h : st.session_keys = some keys) :
    (TLS.encrypt c d t st).2 = { st with server_seq_num := st.server_seq_num + 1 } := by
  simp [TLS.encrypt, h]

theorem decrypt_state (c : Crypto) (d : Bytes) (t v : Nat) (st : TLS.TLSState)
    (keys : TLS.SessionKeys) (h : st.session_keys = some keys) :
    (TLS.decrypt c d t v st).2 = { st with client_seq_num := st.client_seq_num + 1 } := by
  rcases hd : TLS.decryptPayload c keys (st.client_seq_num) d t v with pt | e
  all_goals simp [TLS.decrypt, h, hd]

theorem foldAead (c : Crypto) (keys : TLS.SessionKeys) :
    ∀ (ops : List AeadOp) (st0 : TLS.TLSState), st0.session_keys = some keys →
    (List.foldl (applyAeadOp c) st0 ops).session_keys = some keys ∧
    (List.foldl (applyAeadOp c) st0 ops).client_seq_num
      = st0.client_seq_num + countDec ops ∧
    (List.foldl (applyAeadOp c) st0 ops).server_seq_num
      = st0.server_seq_num + countEnc ops := by
  intro ops
  induction ops with
  | nil => intro st0 h; simp [countDec, countEnc, h]
  | cons op rest ih =>
    intro st0 h
    cases op with
    | enc t d =>
      have hstep := encrypt_state c d t st0 keys h
      have h' : (applyAeadOp c st0 (.enc t d)).session_keys = some keys := by
        simp [applyAeadOp, hstep, h]
      obtain ⟨k, hc, hs⟩ := ih (applyAeadOp c st0 (.enc t d)) h'
      refine ⟨k, ?_, ?_⟩
      · rw [List.foldl_cons, hc]
        simp [applyAeadOp, hstep, countDec]
      · rw [List.foldl_cons, hs]
        simp [applyAeadOp, hstep, countEnc]
        omega
    | dec t v d =>
      have hstep := decrypt_state c d t v st0 keys h
      have h' : (applyAeadOp c st0 (.dec t v d)).session_keys = some keys := by
        simp [applyAeadOp, hstep, h]
      obtain ⟨k, hc, hs⟩ := ih (applyAeadOp c st0 (.dec t v d)) h'
      refine ⟨k, ?_, ?_⟩
      · rw [List.foldl_cons, hc]
        simp [applyAeadOp, hstep, countDec]
        omega
      · rw [List.foldl_cons, hs]
        simp [applyAeadOp, hstep, countEnc]

/-- C6: both counters start at 0 in `__init__`; every `_encrypt` adds 1 to
the server counter and leaves the client counter alone; every `_decrypt`
adds 1 to the client counter (whether verification succeeds or fails)
and leaves the server counter alone; over any sequence of AEAD
operations each counter equals its start plus the number of operations
in its own direction, and neither ever decreases. -/
theorem claim_C6 (c : Crypto) (keys : TLS.SessionKeys) (ops : List AeadOp)
    (st0 : TLS.TLSState) (h : st0.session_keys = some keys) :
    (∀ cfg input, (TLS.init cfg input).client_seq_num = 0 ∧
      (TLS.init cfg input).server_seq_num = 0) ∧
    (∀ st : TLS.TLSState, st.session_keys = some keys →
      (∀ t d, (TLS.encrypt c d t st).2.server_seq_num = st.server_seq_num + 1 ∧
              (TLS.encrypt c d t st).2.client_seq_num = st.client_seq_num) ∧
      (∀ t v d, (TLS.decrypt c d t v st).2.client_seq_num = st.client_seq_num + 1 ∧
                (TLS.decrypt c d t v st).2.server_seq_num = st.server_seq_num)) ∧
    ((List.foldl (applyAeadOp c) st0 ops).client_seq_num
        = st0.client_seq_num + countDec ops ∧
     (List.foldl (applyAeadOp c) st0 ops).server_seq_num
        = st0.server_seq_num + countEnc ops) ∧
    (st0.client_seq_num ≤ (List.foldl (applyAeadOp c) st0 ops).client_seq_num ∧
     st0.server_seq_num ≤ (List.foldl (applyAeadOp c) st0 ops).server_seq_num) := by
  obtain ⟨hk, hcnt, hsnt⟩ := foldAead c keys ops st0 h
  refine ⟨fun cfg input => ⟨rfl, rfl⟩, ?_, ⟨hcnt, hsnt⟩, by omega, by omega⟩
  intro st hst
  constructor
  · intro t d
    rw [encrypt_state c d t st keys hst]
    exact ⟨rfl, rfl⟩
  · intro t v d
    rw [decrypt_state c d t v st keys hst]
    exact ⟨rfl, rfl⟩

/-- A trivial instantiation of the external crypto primitives used by
concrete runs: constant 32-byte HMAC and SHA-256 outputs, the all-zero
keystream, and the all-zero 16-byte tag. -/
def trivialCrypto : Crypto :=
  { hmacSha256 := fun _ _ => List.replicate 32 1
    sha256 := fun _ => List.replicate 32 2
    keystream := fun _ _ _ => 0
    gcmTag := fun _ _ _ _ => List.replicate 16 0 }

/-- The session keys the trivial crypto derives in the concrete handshake
run: every PRF output byte is 1. -/
def exampleKeys : TLS.SessionKeys :=
  { master_secret := List.replicate 48 1
    client_key := List.replicate 16 1
    server_key := List.replicate 16 1
    client_salt := List.replicate 4 1
    server_salt := List.replicate 4 1 }

/-- A post-key-exchange state over an empty stream, for witnesses. -/
def keyedState : TLS.TLSState :=
  { TLS.init exampleConfig [] with session_keys := some exampleKeys }

theorem claim_C6_witness :
    keyedState.session_keys = some exampleKeys ∧
    ((List.foldl (applyAeadOp trivialCrypto) keyedState
        [AeadOp.enc 23 [1, 2], AeadOp.dec 23 771 [9], AeadOp.dec 23 771 []]).client_seq_num
      = keyedState.client_seq_num
          + countDec [AeadOp.enc 23 [1, 2], AeadOp.dec 23 771 [9], AeadOp.dec 23 771 []] ∧
     (List.foldl (applyAeadOp trivialCrypto) keyedState
        [AeadOp.enc 23 [1, 2], AeadOp.dec 23 771 [9], AeadOp.dec 23 771 []]).server_seq_num
      = keyedState.server_seq_num
          + countEnc [AeadOp.enc 23 [1, 2], AeadOp.dec 23 771 [9], AeadOp.dec 23 771 []]) :=
  ⟨rfl,
   (claim_C6 trivialCrypto exampleKeys
      [AeadOp.enc 23 [1, 2], AeadOp.dec 23 771 [9], AeadOp.dec 23 771 []]
      keyedState rfl).2.2.1⟩

/-!
AEAD round trip and tamper detection.  The wire payload of `_encrypt` is
`explicit_nonce || ciphertext || tag`; `_decrypt` re-splits it by
position, rebuilds the additional data, and verifies the tag.
-/

theorem ctrXor_length (ks : Bytes → Bytes → Nat → Nat) (key nonce : Bytes) :
    ∀ (i : Nat) (d : Bytes), (ctrXor ks key nonce i d).length = d.length := by
  intro i d
  induction d generalizing i with
  | nil => rfl
  | cons x rest ih => simp [ctrXor, ih]

theorem ctrXor_ctrXor (ks : Bytes → Bytes → Nat → Nat) (key nonce : Bytes) :
    ∀ (i : Nat) (d : Bytes), ctrXor ks key nonce i (ctrXor ks key nonce i d) = d := by
  intro i d
  induction d generalizing i with
  | nil => rfl
  | cons x rest ih => simp [ctrXor, ih, Nat.xor_assoc]

theorem take_set_of_le (b : Nat) :
    ∀ (l : Bytes) (i n : Nat), n ≤ i → (l.set i b).take n = l.take n := by
  intro l
  induction l with
  | nil => intro i n _; simp
  | cons a rest ih =>
    intro i n h
    cases i with
    | zero =>
      have : n = 0 := Nat.le_zero.mp h
      subst this; simp
    | succ i' =>
      cases n with
      | zero => simp
      | succ n' =>
        simp only [List.set, List.take]
        rw [ih i' n' (Nat.le_of_succ_le_succ h)]

theorem getD_append_right (l₁ l₂ : Bytes) (n d : Nat) (h : l₁.length ≤ n) :
    (l₁ ++ l₂).getD n d = l₂.getD (n - l₁.length) d := by
  simp [List.getD, List.getElem?_append_right h]

theorem set_ne_of_getD (l : Bytes) (j b : Nat) (h : j < l.length)
    (hb : b ≠ l.getD j 0) : l.set j b ≠ l := by
  intro he
  apply hb
  have := congrArg (fun t => List.getD t j 0) he
  simpa [List.getD, List.getElem?_set, h] using this

/-- The GCM nonce of the server direction: `server_salt` next to the
fixed explicit nonce. -/
def serverNonce (keys : TLS.SessionKeys) : Bytes :=
  keys.server_salt ++ get_random_bytes 8

/-- The GCM ciphertext body `_encrypt` produces for plaintext `pt`. -/
def encCt (c : Crypto) (keys : TLS.SessionKeys) (pt : Bytes) : Bytes :=
  ctrXor c.keystream keys.server_key (serverNonce keys) 0 pt

/-- The GCM tag `_encrypt` attaches. -/
def encTag (c : Crypto) (keys : TLS.SessionKeys) (seq t : Nat) (pt : Bytes) : Bytes :=
  c.gcmTag keys.server_key (serverNonce keys)
    (to_ad seq t TLS.VERSION pt.length) (encCt c keys pt)

theorem encryptPayload_parts (c : Crypto) (keys : TLS.SessionKeys) (seq t : Nat)
    (pt : Bytes) :
    TLS.encryptPayload c keys seq pt t
      = get_random_bytes 8 ++ encCt c keys pt ++ encTag c keys seq t pt := rfl

/-- Evaluation of `_decrypt`'s payload splitting on a payload of the shape
`nonce(8) || ciphertext || tag(16)`. -/
theorem decryptPayload_parts (c : Crypto) (keys : TLS.SessionKeys) (seq t v : Nat)
    (n8 ctb tagb : Bytes) (h8 : n8.length = 8) (h16 : tagb.length = 16) :
    TLS.decryptPayload c keys seq (n8 ++ ctb ++ tagb) t v =
      if c.gcmTag keys.client_key (keys.client_salt ++ n8)
          (to_ad seq t v ctb.length) ctb = tagb
      then .ok (ctrXor c.keystream keys.client_key (keys.client_salt ++ n8) 0 ctb)
      else .error .authError := by
  have htake : (n8 ++ ctb ++ tagb).take 8 = n8 := by
    rw [List.append_assoc, List.take_left' h8]
  have hct : ((n8 ++ ctb ++ tagb).drop 8).take ((n8 ++ ctb ++ tagb).length - 24) = ctb := by
    rw [List.append_assoc, List.drop_left' h8]
    have h1 : (n8 ++ (ctb ++ tagb)).length - 24 = ctb.length := by
      simp only [List.length_append]
      omega
    rw [h1, List.take_left' rfl]
  have htag : (n8 ++ ctb ++ tagb).drop ((n8 ++ ctb ++ tagb).length - 16) = tagb := by
    have h1 : (n8 ++ ctb ++ tagb).length - 16 = (n8 ++ ctb).length := by
      simp only [List.length_append]
      omega
    rw [h1, List.drop_left]
  simp only [TLS.decryptPayload, htake, hct, htag]

/-- C5: with loopback-matching keys (the client-direction key and salt
equal to the server-direction ones, as when feeding the emitted record
back through the client-side path) and 16-byte GCM tags, decrypting the
payload `_encrypt` produced, with the same sequence number, content type
and protocol version, returns the original plaintext; and a payload with
one altered ciphertext or tag byte is rejected with the authentication
error — for a tag byte unconditionally, for a ciphertext byte whenever
the altered ciphertext's tag differs from the genuine one (the defining
property of the GCM tag, short of a 2^-128 collision). -/
theorem claim_C5 (c : Crypto) (keys : TLS.SessionKeys) (seq t : Nat) (pt : Bytes)
    (htag : ∀ k n a d, (c.gcmTag k n a d).length = 16)
    (hk : keys.client_key = keys.server_key)
    (hsalt : keys.client_salt = keys.server_salt)
    (i b : Nat) (hi8 : 8 ≤ i)
    (hilt : i < (TLS.encryptPayload c keys seq pt t).length)
    (hb : b ≠ (TLS.encryptPayload c keys seq pt t).getD i 0)
    (hcoll : i < 8 + pt.length →
      c.gcmTag keys.server_key (serverNonce keys)
          (to_ad seq t TLS.VERSION pt.length) ((encCt c keys pt).set (i - 8) b)
        ≠ encTag c keys seq t pt) :
    TLS.decryptPayload c keys seq (TLS.encryptPayload c keys seq pt t) t TLS.VERSION
      = .ok pt ∧
    TLS.decryptPayload c keys seq ((TLS.encryptPayload c keys seq pt t).set i b) t
        TLS.VERSION = .error .authError := by
  have h8 : (get_random_bytes 8).length = 8 := by simp [get_random_bytes]
  have hctlen : (encCt c keys pt).length = pt.length := ctrXor_length _ _ _ 0 pt
  have h16 : (encTag c keys seq t pt).length = 16 := htag _ _ _ _
  have hsn : (keys.server_salt ++ get_random_bytes 8 : Bytes) = serverNonce keys := rfl
  constructor
  · rw [encryptPayload_parts,
      decryptPayload_parts c keys seq t TLS.VERSION _ _ _ h8 h16, hk, hsalt, hctlen, hsn]
    have hcond : c.gcmTag keys.server_key (serverNonce keys)
        (to_ad seq t TLS.VERSION pt.length) (encCt c keys pt)
        = encTag c keys seq t pt := rfl
    rw [hcond, if_pos rfl]
    have hinv : ctrXor c.keystream keys.server_key (serverNonce keys) 0
        (encCt c keys pt) = pt :=
      ctrXor_ctrXor c.keystream keys.server_key (serverNonce keys) 0 pt
    rw [hinv]
  · rw [encryptPayload_parts] at hilt hb ⊢
    have hilt' : i < 8 + pt.length + 16 := by
      simp only [List.length_append, h8, hctlen, h16] at hilt
      omega
    by_cases hA : i < 8 + pt.length
    · have hispl : i < (get_random_bytes 8 ++ encCt c keys pt).length := by
        simp only [List.length_append, h8, hctlen]
        omega
      have hset : (get_random_bytes 8 ++ encCt c keys pt
            ++ encTag c keys seq t pt).set i b
          = get_random_bytes 8 ++ (encCt c keys pt).set (i - 8) b
            ++ encTag c keys seq t pt := by
        rw [List.set_append_left i b hispl]
        congr 1
        rw [List.set_append_right i b (by rw [h8]; exact hi8), h8]
      rw [hset, decryptPayload_parts c keys seq t TLS.VERSION _ _ _ h8 h16,
        hk, hsalt, List.length_set, hctlen, hsn]
      rw [if_neg (hcoll hA)]
    · have hlen12 : (get_random_bytes 8 ++ encCt c keys pt).length = 8 + pt.length := by
        simp only [List.length_append, h8, hctlen]
      have hge : (get_random_bytes 8 ++ encCt c keys pt).length ≤ i := by
        rw [hlen12]
        omega
      have hj : i - (get_random_bytes 8 ++ encCt c keys pt).length
          < (encTag c keys seq t pt).length := by
        rw [hlen12, h16]
        omega
      have hset : (get_random_bytes 8 ++ encCt c keys pt
            ++ encTag c keys seq t pt).set i b
          = get_random_bytes 8 ++ encCt c keys pt
            ++ (encTag c keys seq t pt).set
                (i - (get_random_bytes 8 ++ encCt c keys pt).length) b := by
        rw [List.set_append_right i b hge]
      have hbtag : b ≠ (encTag c keys seq t pt).getD
          (i - (get_random_bytes 8 ++ encCt c keys pt).length) 0 := by
        rw [getD_append_right _ _ _ _ hge] at hb
        exact hb
      have hne : (encTag c keys seq t pt).set
            (i - (get_random_bytes 8 ++ encCt c keys pt).length) b
          ≠ encTag c keys seq t pt :=
        set_ne_of_getD _ _ _ hj hbtag
      rw [hset, decryptPayload_parts c keys seq t TLS.VERSION _ _ _ h8
          (by rw [List.length_set]; exact h16),
        hk, hsalt, hctlen, hsn]
      have hcond : c.gcmTag keys.server_key (serverNonce keys)
          (to_ad seq t TLS.VERSION pt.length) (encCt c keys pt)
          = encTag c keys seq t pt := rfl
      rw [hcond, if_neg (fun he => hne he.symm)]

/-- A crypto instantiation whose GCM tag depends on the ciphertext and
whose keystream is nonzero, used by tamper witnesses and the transcript
counterexample. -/
def xorCrypto : Crypto :=
  { hmacSha256 := fun _ _ => List.replicate 32 1
    sha256 := fun _ => List.replicate 32 2
    keystream := fun _ _ _ => 255
    gcmTag := fun _ _ _ ct => ct.take 16 ++ List.replicate (16 - ct.length) 0 }

theorem xorCrypto_tag_length : ∀ k n a d, (xorCrypto.gcmTag k n a d).length = 16 := by
  intro k n a d
  simp only [xorCrypto, List.length_append, List.length_take, List.length_replicate]
  omega

theorem claim_C5_witness :
    ((∀ k n a d, (trivialCrypto.gcmTag k n a d).length = 16) ∧
     exampleKeys.client_key = exampleKeys.server_key ∧
     exampleKeys.client_salt = exampleKeys.server_salt ∧
     8 ≤ 25 ∧
     25 < (TLS.encryptPayload trivialCrypto exampleKeys 0 [104, 105] 23).length ∧
     (1 : Nat) ≠ (TLS.encryptPayload trivialCrypto exampleKeys 0 [104, 105] 23).getD 25 0 ∧
     TLS.decryptPayload trivialCrypto exampleKeys 0
         (TLS.encryptPayload trivialCrypto exampleKeys 0 [104, 105] 23) 23 TLS.VERSION
       = .ok [104, 105] ∧
     TLS.decryptPayload trivialCrypto exampleKeys 0
         ((TLS.encryptPayload trivialCrypto exampleKeys 0 [104, 105] 23).set 25 1) 23
         TLS.VERSION
       = .error .authError) ∧
    ((∀ k n a d, (xorCrypto.gcmTag k n a d).length = 16) ∧
     (8 < 8 + ([104, 105] : Bytes).length →
       xorCrypto.gcmTag exampleKeys.server_key (serverNonce exampleKeys)
           (to_ad 0 23 TLS.VERSION ([104, 105] : Bytes).length)
           ((encCt xorCrypto exampleKeys [104, 105]).set (8 - 8) 0)
         ≠ encTag xorCrypto exampleKeys 0 23 [104, 105]) ∧
     TLS.decryptPayload xorCrypto exampleKeys 0
         (TLS.encryptPayload xorCrypto exampleKeys 0 [104, 105] 23) 23 TLS.VERSION
       = .ok [104, 105] ∧
     TLS.decryptPayload xorCrypto exampleKeys 0
         ((TLS.encryptPayload xorCrypto exampleKeys 0 [104, 105] 23).set 8 0) 23
         TLS.VERSION
       = .error .authError) := by
  have ht : ∀ k n a d, (trivialCrypto.gcmTag k n a d).length = 16 := by
    intro k n a d
    simp [trivialCrypto]
  have w1 := claim_C5 trivialCrypto exampleKeys 0 23 [104, 105] ht rfl rfl 25 1
    (by decide) (by decide) (by decide)
    (fun h => absurd h (by decide))
  have w2 := claim_C5 xorCrypto exampleKeys 0 23 [104, 105] xorCrypto_tag_length rfl rfl 8 0
    (by decide) (by decide) (by decide)
    (fun _ => by decide)
  exact ⟨⟨ht, rfl, rfl, by decide, by decide, by decide, w1.1, w1.2⟩,
    ⟨xorCrypto_tag_length, fun _ => by decide, w2.1, w2.2⟩⟩

/-- C10: every value the engine treats as random is the byte `0x41`
repeated — `get_random_bytes` is constant, the server random placed in
the state by `__init__` is 32 bytes of `0x41`, the explicit nonce
starting every `_encrypt` payload is 8 bytes of `0x41` — and the whole
handshake (hence every byte the server writes) is a function of the
client's input bytes alone: equal inputs give equal runs. -/
theorem claim_C10 :
    (∀ n, get_random_bytes n = List.replicate n 65) ∧
    (∀ (cfg : TLS.Config) (input : Bytes),
      (TLS.init cfg input).server_random = List.replicate 32 65) ∧
    (∀ (c : Crypto) (keys : TLS.SessionKeys) (seq : Nat) (d : Bytes) (t : Nat),
      (TLS.encryptPayload c keys seq d t).take 8 = List.replicate 8 65) ∧
    (∀ (c : Crypto) (cfg : TLS.Config) (input₁ input₂ : Bytes), input₁ = input₂ →
      TLS.runHandshake c cfg input₁ = TLS.runHandshake c cfg input₂) := by
  refine ⟨fun n => rfl, fun cfg input => rfl, ?_, fun c cfg i₁ i₂ h => by rw [h]⟩
  intro c keys seq d t
  rw [encryptPayload_parts, List.append_assoc,
    List.take_left' (show (get_random_bytes 8).length = 8 by simp [get_random_bytes])]
  rfl

theorem claim_C10_witness :
    ([7, 7] : Bytes) = [7, 7] ∧
    (get_random_bytes 3 = List.replicate 3 65 ∧
     (TLS.init exampleConfig []).server_random = List.replicate 32 65 ∧
     (TLS.encryptPayload trivialCrypto exampleKeys 0 [6] 23).take 8
       = List.replicate 8 65 ∧
     TLS.runHandshake trivialCrypto exampleConfig [7, 7]
       = TLS.runHandshake trivialCrypto exampleConfig [7, 7]) :=
  ⟨rfl,
   claim_C10.1 3,
   claim_C10.2.1 exampleConfig [],
   claim_C10.2.2.1 trivialCrypto exampleKeys 0 [6] 23,
   claim_C10.2.2.2 trivialCrypto exampleConfig [7, 7] [7, 7] rfl⟩

/-!
A complete concrete handshake run.  The client byte stream below drives
`_shake_hands` to completion under `trivialCrypto` and `exampleConfig`:
a ClientHello with client random `0x11` repeated, a ClientKeyExchange
whose 512-byte "RSA ciphertext" is the padded block itself (the example
key has `d = 1` and a modulus larger than any 512-byte block starting
with `0x00`), a ChangeCipherSpec, and an encrypted Finished message
whose 12-byte body is all zeros — which is NOT the PRF value the spec
requires, yet the handshake completes.
-/

instance {ε α : Type} [DecidableEq ε] [DecidableEq α] : DecidableEq (Except ε α) :=
  fun x y =>
  match x, y with
  | .ok a, .ok b =>
    if h : a = b then isTrue (by rw [h]) else isFalse (by intro he; cases he; exact h rfl)
  | .error e, .error f =>
    if h : e = f then isTrue (by rw [h]) else isFalse (by intro he; cases he; exact h rfl)
  | .ok _, .error _ => isFalse (by intro he; cases he)
  | .error _, .ok _ => isFalse (by intro he; cases he)

def exampleBlock : Bytes := [0, 2] ++ List.replicate 461 1 ++ 0 :: List.replicate 48 34

def exampleClientHello : Bytes :=
  [22, 3, 3] ++ pack16 38
    ++ (pack32 ((0x1 <<< 24) ||| 34) ++ ([3, 3] ++ List.replicate 32 17))

def exampleCKE : Bytes :=
  [22, 3, 3] ++ pack16 518
    ++ (pack32 ((0x10 <<< 24) ||| 514) ++ (pack16 512 ++ exampleBlock))

def exampleCCS : Bytes := [20, 3, 3, 0, 1, 1]

def exampleFinishedRecord : Bytes :=
  [22, 3, 3] ++ pack16 40
    ++ (List.replicate 8 65 ++ (pack32 ((0x14 <<< 24) ||| 12) ++ List.replicate 12 0)
        ++ List.replicate 16 0)

def exampleInput : Bytes :=
  exampleClientHello ++ exampleCKE ++ exampleCCS ++ exampleFinishedRecord

/-!
Handshake-header bit arithmetic: the 4-byte header packs the type in the
top byte and the 24-bit length below it.
-/

theorem shiftRight_lor_distrib (x y n : Nat) :
    (x ||| y) >>> n = (x >>> n) ||| (y >>> n) := by
  apply Nat.eq_of_testBit_eq
  intro i
  simp [Nat.testBit_shiftRight, Nat.testBit_or]

theorem shiftLeft_lor_parse (a b n : Nat) (hb : b < 2 ^ n) :
    ((a <<< n) ||| b) >>> n = a ∧ ((a <<< n) ||| b) &&& (2 ^ n - 1) = b := by
  constructor
  · rw [shiftRight_lor_distrib]
    have h1 : (a <<< n) >>> n = a := by
      rw [Nat.shiftLeft_eq, Nat.shiftRight_eq_div_pow]
      exact Nat.mul_div_cancel a (Nat.pos_pow_of_pos n (by norm_num))
    have h2 : b >>> n = 0 := by
      rw [Nat.shiftRight_eq_div_pow]
      exact Nat.div_eq_of_lt hb
    rw [h1, h2, Nat.or_zero]
  · rw [Nat.and_distrib_right, Nat.and_pow_two_sub_one_eq_mod,
      Nat.and_pow_two_sub_one_eq_mod, Nat.shiftLeft_eq, Nat.mul_mod_left,
      Nat.mod_eq_of_lt hb]
    simp

theorem bytesToNat_pack32 (h : Nat) (hlt : h < 2 ^ 32) : bytesToNat (pack32 h) = h := by
  simp only [bytesToNat, pack32, List.foldl]
  omega

/-- The all-zero keystream leaves data unchanged. -/
theorem ctrXor_zero_ks (key nonce : Bytes) :
    ∀ (i : Nat) (d : Bytes), ctrXor (fun _ _ _ => 0) key nonce i d = d := by
  intro i d
  induction d generalizing i with
  | nil => rfl
  | cons x rest ih => simp [ctrXor, ih]

/-!
The AwaitClientFinished phase, for an arbitrary Finished body.  The
states below walk the engine from "ChangeCipherSpec and encrypted
Finished are on the wire" to "client Finished consumed": `finW body` is
the AEAD wire payload carrying the handshake message `0x14 || len24 ||
body` under `trivialCrypto` (zero keystream, all-zero tag) and
`exampleKeys`; `finPhaseState` is the engine state about to read the
ChangeCipherSpec; `finStA` through `finStD` are the successive states.
-/

def finPlain (body : Bytes) : Bytes := pack32 ((20 <<< 24) ||| body.length) ++ body

def finW (body : Bytes) : Bytes :=
  List.replicate 8 65 ++ finPlain body ++ List.replicate 16 0

def finPhaseState (body : Bytes) : TLS.TLSState :=
  { input := 20 :: 3 :: 3 :: 0 :: 1 :: 1 :: 22 :: 3 :: 3
      :: ((finW body).length / 256 % 256) :: ((finW body).length % 256) :: finW body
    output := []
    server_random := List.replicate 32 65
    client_seq_num := 0
    server_seq_num := 0
    handshake_log := []
    session_keys := some exampleKeys }

def finStA (body : Bytes) : TLS.TLSState :=
  { finPhaseState body with input := (22 :: 3 :: 3
      :: ((finW body).length / 256 % 256) :: ((finW body).length % 256)
      :: finW body : Bytes) }

def finStB (body : Bytes) : TLS.TLSState :=
  { finPhaseState body with input := ([] : Bytes) }

def finStC (body : Bytes) : TLS.TLSState :=
  { finPhaseState body with
      input := ([] : Bytes)
      client_seq_num := 1 }

def finStD (body : Bytes) : TLS.TLSState :=
  { finPhaseState body with
      input := ([] : Bytes)
      client_seq_num := 1
      handshake_log := finPlain body }

theorem pair_fst {α β : Type} (p : α × β) (v : α) (h : p.1 = v) : p = (v, p.2) := by
  rw [← h]

theorem decrypt_eval (c : Crypto) (d : Bytes) (t v : Nat) (st : TLS.TLSState)
    (keys : TLS.SessionKeys) (h : st.session_keys = some keys) :
    TLS.decrypt c d t v st
      = (TLS.decryptPayload c keys st.client_seq_num d t v,
         { st with client_seq_num := st.client_seq_num + 1 }) := by
  rcases hd : TLS.decryptPayload c keys st.client_seq_num d t v with pt | e
  all_goals simp [TLS.decrypt, h, hd]

theorem write_record_eval (r : TLS.Record) (st : TLS.TLSState) :
    TLS.write_record r st
      = (.ok (), { st with output := st.output
          ++ (pack8 r.content_type ++ pack16 r.version ++ pack16 r.data.length ++ r.data) }) := by
  simp [TLS.write_record, TLS.send]

theorem get_server_finished_eval (c : Crypto) (st : TLS.TLSState)
    (keys : TLS.SessionKeys) (h : st.session_keys = some keys) :
    TLS.get_server_finished c st
      = (.ok (prf c.hmacSha256 keys.master_secret (bytesOf "server finished")
          (c.sha256 st.handshake_log) 12), st) := by
  simp [TLS.get_server_finished, h]

theorem write_handshake_record_true_fst (c : Crypto) (r : TLS.HandshakeRecord)
    (st : TLS.TLSState) (keys : TLS.SessionKeys) (h : st.session_keys = some keys) :
    (TLS.write_handshake_record c r true st).1 = .ok () := by
  simp [TLS.write_handshake_record, TLS.encrypt, h, TLS.write_record, TLS.send, TLS.appendLog]

theorem finW_length (body : Bytes) : (finW body).length = body.length + 28 := by
  simp [finW, finPlain, pack32]

theorem fin_q1 (body : Bytes) :
    TLS.read_record 20 (finPhaseState body) = (.ok ⟨20, 771, [1]⟩, finStA body) := by
  rw [TLS.read_record_eval 20 20 3 3 0 1
    (1 :: 22 :: 3 :: 3 :: ((finW body).length / 256 % 256)
      :: ((finW body).length % 256) :: finW body)
    (finPhaseState body) rfl (by simp)]
  norm_num
  rfl

theorem fin_q2 (body : Bytes) (h65 : body.length + 28 < 65536) :
    TLS.read_record 22 (finStA body) = (.ok ⟨22, 771, finW body⟩, finStB body) := by
  have hWlen := finW_length body
  have hparse : ((finW body).length / 256 % 256) * 256 + ((finW body).length % 256)
      = (finW body).length := by omega
  rw [show finStA body = { finPhaseState body with input := (22 :: 3 :: 3
      :: ((finW body).length / 256 % 256) :: ((finW body).length % 256)
      :: finW body : Bytes) } from rfl]
  rw [TLS.read_record_eval 22 22 3 3 ((finW body).length / 256 % 256)
    ((finW body).length % 256) (finW body) _ rfl (by omega)]
  rw [if_pos rfl, hparse, List.drop_length, List.take_length]
  rfl

theorem fin_q3 (body : Bytes) :
    TLS.decrypt trivialCrypto (finW body) 22 771 (finStB body)
      = (.ok (finPlain body), finStC body) := by
  have hcond : trivialCrypto.gcmTag exampleKeys.client_key
      (exampleKeys.client_salt ++ List.replicate 8 65)
      (to_ad 0 22 771 (finPlain body).length) (finPlain body)
      = List.replicate 16 0 := rfl
  have hDP : TLS.decryptPayload trivialCrypto exampleKeys 0 (finW body) 22 771
      = .ok (finPlain body) := by
    rw [show finW body
        = List.replicate 8 65 ++ finPlain body ++ List.replicate 16 0 from rfl]
    rw [decryptPayload_parts trivialCrypto exampleKeys 0 22 771 _ _ _
      (by simp) (by simp)]
    rw [if_pos hcond]
    rw [show trivialCrypto.keystream = (fun _ _ _ => 0) from rfl, ctrXor_zero_ks]
  rw [decrypt_eval trivialCrypto (finW body) 22 771 _ exampleKeys rfl]
  show (TLS.decryptPayload trivialCrypto exampleKeys 0 (finW body) 22 771, _) = _
  rw [hDP]
  rfl

theorem fin_q4 (body : Bytes) :
    TLS.appendLog (finPlain body) (finStC body) = (.ok (), finStD body) := by
  rw [TLS.appendLog_eval]
  rfl

theorem read_fin_eval (body : Bytes) (h24 : body.length < 2 ^ 24)
    (h65 : body.length + 28 < 65536) :
    TLS.read_handshake_record trivialCrypto 20 true (finStA body)
      = (.ok ⟨20, body⟩, finStD body) := by
  have hlen4 : ¬ (finPlain body).length < 4 := by
    simp [finPlain, pack32]
  have hlt32 : (20 <<< 24) ||| body.length < 2 ^ 32 :=
    Nat.or_lt_two_pow (by decide) (lt_trans h24 (by norm_num))
  have hheader : bytesToNat ((finPlain body).take 4) = (20 <<< 24) ||| body.length := by
    rw [show (finPlain body).take 4 = pack32 ((20 <<< 24) ||| body.length) from
      List.take_left' (by simp [pack32])]
    rw [bytesToNat_pack32 _ hlt32]
  have hdrop4 : (finPlain body).drop 4 = body := List.drop_left' (by simp [pack32])
  have hshift : ((20 <<< 24) ||| body.length) >>> 24 = 20 :=
    (shiftLeft_lor_parse 20 body.length 24 h24).1
  have hmask : ((20 <<< 24) ||| body.length) &&& 0xFFFFFF = body.length := by
    have h := (shiftLeft_lor_parse 20 body.length 24 h24).2
    norm_num at h ⊢
    exact h
  simp only [TLS.read_handshake_record, TLS.HANDSHAKE_CONTENT_TYPE]
  rw [TLS.bind_eval, fin_q2 body h65]
  simp only []
  simp only [if_true]
  rw [TLS.bind_eval, fin_q3 body]
  simp only []
  rw [TLS.bind_eval, fin_q4 body]
  simp only []
  rw [if_neg hlen4, hheader, hshift, if_pos (rfl : (20 : Nat) = 20), hmask, hdrop4,
    List.take_length]
  simp only [TLS.pure_eval]

set_option maxHeartbeats 1000000 in
/-- C1 (amended): in AwaitClientFinished the handshake decrypts the
client's Finished message and checks only its handshake type; it never
computes the expected value `prf(master_secret, "client finished",
SHA256(transcript), 12)` and never compares the received body against
anything: for every body — matching the expected PRF value or not — the
finished exchange accepts the message, sends ChangeCipherSpec and the
encrypted server Finished, and completes (no IntegrityError exists in
the code). -/
theorem claim_C1 (body : Bytes) (h24 : body.length < 2 ^ 24)
    (h65 : body.length + 28 < 65536) :
    (TLS.finished_exchange trivialCrypto (finPhaseState body)).1 = .ok ⟨20, body⟩ := by
  simp only [TLS.finished_exchange, TLS.FINISHED_HANDSHAKE_TYPE,
    TLS.CHANGE_CIPHER_SPEC_CONTENT_TYPE, TLS.VERSION]
  rw [TLS.bind_eval, fin_q1 body]
  simp only []
  rw [TLS.bind_eval, read_fin_eval body h24 h65]
  simp only []
  have hkeysD : (finStD body).session_keys = some exampleKeys := rfl
  have w1 : TLS.write_record ⟨20, 771, [1]⟩ (finStD body)
      = (.ok (), (TLS.write_record ⟨20, 771, [1]⟩ (finStD body)).2) :=
    pair_fst _ _ (by rw [write_record_eval])
  have hk1 : (TLS.write_record ⟨20, 771, [1]⟩ (finStD body)).2.session_keys
      = some exampleKeys := by
    rw [write_record_eval]
    exact hkeysD
  have w2 : TLS.get_server_finished trivialCrypto
        ((TLS.write_record ⟨20, 771, [1]⟩ (finStD body)).2)
      = (.ok (prf trivialCrypto.hmacSha256 exampleKeys.master_secret
          (bytesOf "server finished")
          (trivialCrypto.sha256
            ((TLS.write_record ⟨20, 771, [1]⟩ (finStD body)).2.handshake_log)) 12),
         (TLS.write_record ⟨20, 771, [1]⟩ (finStD body)).2) :=
    get_server_finished_eval trivialCrypto _ exampleKeys hk1
  have w3 : TLS.write_handshake_record trivialCrypto
        ⟨20, prf trivialCrypto.hmacSha256 exampleKeys.master_secret
          (bytesOf "server finished")
          (trivialCrypto.sha256
            ((TLS.write_record ⟨20, 771, [1]⟩ (finStD body)).2.handshake_log)) 12⟩
        true ((TLS.write_record ⟨20, 771, [1]⟩ (finStD body)).2)
      = (.ok (), (TLS.write_handshake_record trivialCrypto
          ⟨20, prf trivialCrypto.hmacSha256 exampleKeys.master_secret
            (bytesOf "server finished")
            (trivialCrypto.sha256
              ((TLS.write_record ⟨20, 771, [1]⟩ (finStD body)).2.handshake_log)) 12⟩
          true ((TLS.write_record ⟨20, 771, [1]⟩ (finStD body)).2)).2) :=
    pair_fst _ _ (write_handshake_record_true_fst trivialCrypto _ _ exampleKeys hk1)
  rw [TLS.bind_eval, w1]
  simp only []
  rw [TLS.bind_eval, w2]
  simp only []
  rw [TLS.bind_eval, w3]
  simp only []
  rfl

theorem claim_C1_witness :
    (List.replicate 12 7 : Bytes).length < 2 ^ 24 ∧
    (List.replicate 12 7 : Bytes).length + 28 < 65536 ∧
    (TLS.finished_exchange trivialCrypto (finPhaseState (List.replicate 12 7))).1
      = .ok ⟨20, List.replicate 12 7⟩ :=
  ⟨by simp, by simp,
   claim_C1 (List.replicate 12 7) (by simp) (by simp)⟩

set_option maxRecDepth 100000 in
/-- C1 counterexample: a complete concrete handshake run in which the
client's Finished body (12 zero bytes) differs from the expected value
`prf(master_secret, "client finished", SHA256(transcript), 12)` — which
is 12 bytes of 1 under the constant-HMAC instantiation, whatever the
transcript, since the master secret is 48 bytes of 1 — yet
`_shake_hands` runs to completion and returns the mismatching Finished
record: the handshake reaches the established state with no integrity
check. -/
theorem claim_C1_counterexample :
    (TLS.runHandshake trivialCrypto exampleConfig exampleInput).1
        = .ok ⟨20, List.replicate 12 0⟩ ∧
    (TLS.runHandshake trivialCrypto exampleConfig exampleInput).2.session_keys
        = some exampleKeys ∧
    prf trivialCrypto.hmacSha256 exampleKeys.master_secret (bytesOf "client finished")
        (trivialCrypto.sha256
          (TLS.runHandshake trivialCrypto exampleConfig exampleInput).2.handshake_log) 12
      = List.replicate 12 1 ∧
    (List.replicate 12 0 : Bytes) ≠ List.replicate 12 1 := by
  refine ⟨by decide, by decide, ?_, by decide⟩
  rw [show trivialCrypto.sha256
      (TLS.runHandshake trivialCrypto exampleConfig exampleInput).2.handshake_log
      = List.replicate 32 2 from rfl]
  decide

theorem write_handshake_record_false_log (c : Crypto) (r : TLS.HandshakeRecord)
    (st : TLS.TLSState) :
    (TLS.write_handshake_record c r false st).2.handshake_log
      = st.handshake_log
        ++ (pack32 ((r.handshake_type <<< 24) ||| r.data.length) ++ r.data) := by
  simp [TLS.write_handshake_record, TLS.appendLog, TLS.write_record, TLS.send]

theorem write_handshake_record_true_log (c : Crypto) (r : TLS.HandshakeRecord)
    (st : TLS.TLSState) (keys : TLS.SessionKeys) (h : st.session_keys = some keys) :
    (TLS.write_handshake_record c r true st).2.handshake_log
      = st.handshake_log
        ++ TLS.encryptPayload c keys st.server_seq_num
            (pack32 ((r.handshake_type <<< 24) ||| r.data.length) ++ r.data)
            TLS.HANDSHAKE_CONTENT_TYPE := by
  simp [TLS.write_handshake_record, TLS.encrypt, h, TLS.appendLog,
    TLS.write_record, TLS.send]

/-- C2 (amended): the transcript accumulator receives, for every
handshake message written without encryption, the plaintext message
bytes (header plus body); for every handshake message written with
encryption — the server Finished — it receives the AEAD wire payload
`explicit_nonce || ciphertext || tag` produced by `_encrypt`, not the
plaintext; and for every received encrypted Finished message it receives
the decrypted plaintext, not the wire bytes. -/
theorem claim_C2 :
    (∀ (c : Crypto) (r : TLS.HandshakeRecord) (st : TLS.TLSState),
      (TLS.write_handshake_record c r false st).2.handshake_log
        = st.handshake_log
          ++ (pack32 ((r.handshake_type <<< 24) ||| r.data.length) ++ r.data)) ∧
    (∀ (c : Crypto) (r : TLS.HandshakeRecord) (st : TLS.TLSState)
        (keys : TLS.SessionKeys), st.session_keys = some keys →
      (TLS.write_handshake_record c r true st).2.handshake_log
        = st.handshake_log
          ++ TLS.encryptPayload c keys st.server_seq_num
              (pack32 ((r.handshake_type <<< 24) ||| r.data.length) ++ r.data)
              TLS.HANDSHAKE_CONTENT_TYPE) ∧
    (∀ body : Bytes, body.length < 2 ^ 24 → body.length + 28 < 65536 →
      (TLS.read_handshake_record trivialCrypto 20 true (finStA body)).2.handshake_log
        = finPlain body) := by
  refine ⟨write_handshake_record_false_log, write_handshake_record_true_log, ?_⟩
  intro body h24 h65
  rw [read_fin_eval body h24 h65]
  rfl

theorem claim_C2_witness :
    keyedState.session_keys = some exampleKeys ∧
    (List.replicate 12 9 : Bytes).length < 2 ^ 24 ∧
    (List.replicate 12 9 : Bytes).length + 28 < 65536 ∧
    ((TLS.write_handshake_record trivialCrypto ⟨14, [5]⟩ false keyedState).2.handshake_log
        = keyedState.handshake_log ++ (pack32 ((14 <<< 24) ||| 1) ++ [5]) ∧
     (TLS.write_handshake_record trivialCrypto ⟨20, [6]⟩ true keyedState).2.handshake_log
        = keyedState.handshake_log
          ++ TLS.encryptPayload trivialCrypto exampleKeys keyedState.server_seq_num
              (pack32 ((20 <<< 24) ||| 1) ++ [6]) TLS.HANDSHAKE_CONTENT_TYPE ∧
     (TLS.read_handshake_record trivialCrypto 20 true
        (finStA (List.replicate 12 9))).2.handshake_log
        = finPlain (List.replicate 12 9)) :=
  ⟨rfl, by simp, by simp,
   claim_C2.1 trivialCrypto ⟨14, [5]⟩ keyedState,
   claim_C2.2.1 trivialCrypto ⟨20, [6]⟩ keyedState exampleKeys rfl,
   claim_C2.2.2 (List.replicate 12 9) (by simp) (by simp)⟩

/-- C2 counterexample: writing the (encrypted) server Finished message
appends to the transcript the AEAD wire payload — 8 nonce bytes, the
ciphertext (here the plaintext XORed with `0xFF`), and the 16-byte tag —
which differs from the plaintext handshake message bytes the claim
requires. -/
theorem claim_C2_counterexample :
    (TLS.write_handshake_record xorCrypto ⟨20, List.replicate 12 3⟩ true
        keyedState).2.handshake_log
      ≠ keyedState.handshake_log
        ++ (pack32 ((20 <<< 24) ||| 12) ++ List.replicate 12 3) := by
  decide
